import Mathlib

/-!
Shallow embedding of `haproxystats/haproxystats.py` (mwaaas/haproxy-stats).

Python values that can appear in a service object's `__dict__` are modelled by
`Value`: stat cells are either `int` (all-digit cells) or utf-8 text, `None`
(an absent credential / the `proxy_name` default) is `Scalar.null`, and the
`listener_names` attribute is a Python list.  The only lists the program ever
stores are lists of derived names, and every derived name is a stat cell
(int or text), so list values hold scalars.  A service object's `__dict__` is
an insertion-ordered dictionary, modelled as an association list with unique
keys (`dictInsert` keeps the position of an existing key and appends a new
one, exactly like Python dict assignment).  Attribute lookup is `dictGet`; a
`none` result corresponds to Python raising `AttributeError`.  Python `==`
on these values is structural equality with `False` across kinds, which is
exactly the derived decidable equality.
-/

namespace HaproxyStatsModel

/-- A scalar Python value: int, text, or `None`. -/
inductive Scalar : Type where
  | int (n : Nat) : Scalar
  | str (s : String) : Scalar
  | null : Scalar
deriving DecidableEq, Repr

/-- A Python value stored in a service object's `__dict__`: a scalar, or a
list of scalars (the `listener_names` attribute). -/
inductive Value : Type where
  | sc (a : Scalar) : Value
  | list (l : List Scalar) : Value
deriving DecidableEq, Repr

/-- An int cell. -/
def Value.int (n : Nat) : Value := Value.sc (Scalar.int n)

/-- A text cell. -/
def Value.str (s : String) : Value := Value.sc (Scalar.str s)

/-- Python `None`. -/
def Value.null : Value := Value.sc Scalar.null

/-- A service object's `__dict__`: insertion-ordered string-keyed dictionary. -/
abbrev Svc := List (String × Value)

/-- Python `d[k] = v`: replace the value at an existing key in place, append a
new key at the end. -/
def dictInsert : Svc → String → Value → Svc
  | [], k, v => [(k, v)]
  | (k₀, v₀) :: rest, k, v =>
    if k₀ = k then (k, v) :: rest else (k₀, v₀) :: dictInsert rest k v

/-- Python attribute read `getattr(obj, k)`; `none` models `AttributeError`. -/
def dictGet : Svc → String → Option Value
  | [], _ => none
  | (k₀, v₀) :: rest, k => if k₀ = k then some v₀ else dictGet rest k

/-- `dict(zip(ks, vs))`: zip truncates to the shorter list, later duplicate
keys overwrite earlier ones. -/
def dictZip (ks : List String) (vs : List Value) : Svc :=
  (List.zip ks vs).foldl (fun d kv => dictInsert d kv.1 kv.2) []

/-- `to_utf`: Python 2 `s.encode('utf8')` — a representation-only conversion
from unicode to byte strings, with no caller-visible behaviour change; on our
abstract strings it is the identity. -/
def to_utf (s : String) : String := s

/-- Python `s.split(sep)` for a one-character separator, on the character
list: the split of `"a,,b"` at commas is `[a]`, `[]`, `[b]`; the split of the
empty list is one empty group. -/
def splitOnChar (sep : Char) : List Char → List (List Char)
  | [] => [[]]
  | c :: cs =>
    match splitOnChar sep cs with
    | [] => [[]]
    | g :: gs => if c = sep then [] :: g :: gs else (c :: g) :: gs

/-- Python `s.split(sep)` for a one-character separator. -/
def pySplit (sep : Char) (s : String) : List String :=
  (splitOnChar sep s.toList).map String.mk

/-- Python `str.isdigit()`: true iff the string is non-empty and every
character is a digit. -/
def pyIsDigit (s : String) : Bool :=
  !s.toList.isEmpty && s.toList.all Char.isDigit

/-- Python `int(s)` on an all-digit string. -/
def digitsToNat (s : String) : Nat :=
  s.toList.foldl (fun a c => a * 10 + (c.toNat - 48)) 0

/-- `HAProxyService._read`: coerce all-digit cells to int, encode the rest as
utf-8 text, preserving order. -/
def HAProxyService_read (values : List String) : List Value :=
  values.map (fun v => if pyIsDigit v then Value.int (digitsToNat v) else Value.str (to_utf v))

/-- `HAProxyService.__init__`: the object first stores `proxy_name`, but the
assignment `self.__dict__ = dict(zip(fields, self._read(values)))` then
replaces the whole attribute dictionary, discarding that binding.  Afterwards
`self.name` is set from `pxname` (for svname FRONTEND/BACKEND) or `svname`.
`none` models an `AttributeError` (missing `svname`, or missing `pxname` on
the FRONTEND/BACKEND branch). -/
def HAProxyService_init (fields : List String) (values : List String)
    (proxy_name : Option String) : Option Svc :=
  let d₀ : Svc := dictInsert [] "proxy_name"
    (match proxy_name with | some s => Value.str s | none => Value.null)
  let _ := d₀  -- wiped out by the wholesale `__dict__` replacement below
  let d : Svc := dictZip fields (HAProxyService_read values)
  match dictGet d "svname" with
  | none => none
  | some sv =>
    if sv = Value.str "FRONTEND" ∨ sv = Value.str "BACKEND" then
      match dictGet d "pxname" with
      | none => none
      | some px => some (dictInsert d "name" px)
    else
      some (dictInsert d "name" sv)

/-- The frontends/backends/listeners buckets built up by the classification
loop of `fetch_stats`. -/
abbrev Buckets := List Svc × List Svc × List Svc

/-- The classification loop of `HAProxyServer.fetch_stats`: each data line is
split on commas and turned into a service object; a FRONTEND row is appended
to `frontends`, a BACKEND row gets an empty `listener_names` list and is
appended to `backends`, anything else is appended to `listeners`.  The `Bool`
is true when an `AttributeError` escaped mid-loop, in which case the buckets
hold the appends made before the raise and the remaining lines are not
processed. -/
def classifyRows (pname : String) (fields : List String) :
    List String → Buckets → Buckets × Bool
  | [], acc => (acc, false)
  | line :: rest, (fs, bs, ls) =>
    match HAProxyService_init fields (pySplit ',' line) (some pname) with
    | none => ((fs, bs, ls), true)
    | some svc =>
      match dictGet svc "svname" with
      | none => ((fs, bs, ls), true)
      | some sv =>
        if sv = Value.str "FRONTEND" then
          classifyRows pname fields rest (fs ++ [svc], bs, ls)
        else if sv = Value.str "BACKEND" then
          classifyRows pname fields rest
            (fs, bs ++ [dictInsert svc "listener_names" (Value.list [])], ls)
        else
          classifyRows pname fields rest (fs, bs, ls ++ [svc])

/-- The inner loop of the linking phase: for one listener, walk the backends
in order and, whenever `backend.iid == listener.iid`, append the listener's
derived name to that backend's `listener_names`.  The `Bool` is true when an
attribute lookup raised (`iid` or `listener_names`/`name` missing, or a name
that is not a scalar cell), leaving the remaining backends untouched. -/
def linkBackends (l : Svc) : List Svc → List Svc × Bool
  | [] => ([], false)
  | b :: rest =>
    match dictGet b "iid", dictGet l "iid" with
    | some biid, some liid =>
      if biid = liid then
        match dictGet l "name", dictGet b "listener_names" with
        | some (Value.sc ln), some (Value.list ns) =>
          let r := linkBackends l rest
          (dictInsert b "listener_names" (Value.list (ns ++ [ln])) :: r.1, r.2)
        | _, _ => (b :: rest, true)
      else
        let r := linkBackends l rest
        (b :: r.1, r.2)
    | _, _ => (b :: rest, true)

/-- The outer loop of the linking phase of `fetch_stats`: listeners are
processed in listener-list order; an escaped `AttributeError` (flag true)
stops the whole loop. -/
def linkListeners : List Svc → List Svc → List Svc × Bool
  | [], bs => (bs, false)
  | l :: rest, bs =>
    let r := linkBackends l bs
    if r.2 then (r.1, true) else linkListeners rest r.1

/-- Python `s.strip(' #')`: remove leading and trailing characters drawn from
the set `{' ', '#'}` (and no others — in particular tabs, carriage returns
and newlines are kept). -/
def pyStrip (s : String) : String :=
  let isStripped : Char → Bool := fun c => c = ' ' ∨ c = '#'
  String.mk (((s.toList.dropWhile isStripped).reverse.dropWhile isStripped).reverse)

/-- The `stats` attribute assigned at the end of a successful
`fetch_stats`: the three entity lists (each service already is its
field-to-value mapping). -/
abbrev Stats := List Svc × List Svc × List Svc

instance : DecidableEq Stats :=
  fun a b => @instDecidableEqProd _ _ instDecidableEqList
    (@instDecidableEqProd _ _ instDecidableEqList instDecidableEqList) a b

/-- The state of one `HAProxyServer`.  `stats` is `none` until the first
fully successful `fetch_stats` assigns it (reading it then is an
`AttributeError`); the three entity lists similarly start empty. -/
structure Server where
  auth : Option String × Option String
  failed : Bool
  name : String
  url : String
  frontends : List Svc := []
  backends : List Svc := []
  listeners : List Svc := []
  stats : Option Stats := none
deriving DecidableEq, Repr

/-- `HAProxyServer.__init__`: `name` is the part of `base_url` before the
first colon, `url` appends the fixed csv query suffix, `failed` starts
false. -/
def HAProxyServer_init (base_url : String) (auth : Option String × Option String) :
    Server :=
  { auth := auth
    failed := false
    name := (pySplit ':' base_url).headD ""
    url := "http://" ++ base_url ++ "/;csv;norefresh" }

/-- The credential decision of `HAProxyServer._get`: `None in self._auth`
builds the request without credentials; otherwise the `(user, password)`
pair is attached. -/
def requestAuth (auth : Option String × Option String) :
    Option (Option String × Option String) :=
  if auth.1.isNone || auth.2.isNone then none else some auth

/-- `HAProxyServer._get`: build the request (with or without credentials) and
send it; the transport outcome is external input.  A transport exception is
re-raised as a stats exception carrying the url and the cause (the `return`
after the raise is dead code); on success the response text is returned. -/
def HAProxyServer_get (auth : Option String × Option String) (url : String)
    (transport : Except String String) : Except String String :=
  let _req := requestAuth auth
  match transport with
  | Except.error e => Except.error ("Error fetching stats from " ++ url ++ ":\n" ++ e)
  | Except.ok t => Except.ok t

/-- `HAProxyServer.fetch_stats`, with the transport outcome as input.  The
entity lists are cleared first; then the response is stripped of leading and
trailing spaces and hash marks, split into lines, and empty lines are
dropped.  No line left: `failed` is set and the method returns.  Otherwise
the first line yields the header fields (empty tokens dropped) and the rest
are classified, then listeners are linked to backends, and the `stats`
snapshot is assigned.  The returned `Bool` is true when an exception escaped
(transport failure re-raised by `_get`, or an `AttributeError`), with the
state as mutated up to the raise. -/
def fetch_stats (srv : Server) (transport : Except String String) : Server × Bool :=
  let srv := { srv with frontends := [], backends := [], listeners := [] }
  match HAProxyServer_get srv.auth srv.url transport with
  | Except.error _ => (srv, true)
  | Except.ok body =>
    let csv := (pySplit '\n' (pyStrip body)).filter (fun l => l ≠ "")
    match csv with
    | [] => ({ srv with failed := true }, false)
    | headerLine :: rows =>
      let fields := ((pySplit ',' headerLine).filter (fun f => f ≠ "")).map to_utf
      let c := classifyRows srv.name fields rows ([], [], [])
      match c with
      | ((fs, bs, ls), cerr) =>
        let srv := { srv with frontends := fs, backends := bs, listeners := ls }
        if cerr then (srv, true)
        else
          let r := linkListeners ls bs
          let srv := { srv with backends := r.1 }
          if r.2 then (srv, true)
          else ({ srv with stats := some (fs, r.1, ls) }, false)

/-- `HaproxyStats.__init__` builds one `HAProxyServer` per `host:port`
string, sharing the `(user, user_pass)` credential pair (the constructor then
runs one `update()` cycle, modelled separately since it consumes transport
outcomes). -/
def HaproxyStats_init (servers : List String) (user : Option String)
    (user_pass : Option String) : List Server :=
  servers.map (fun s => HAProxyServer_init s (user, user_pass))

/-- The polling loop of `HaproxyStats.update`: fetch each server in order,
pairing it with its transport outcome; a raised fetch exception propagates,
leaving the remaining servers unfetched. -/
def updateLoop : List (Server × Except String String) → List Server × Bool
  | [] => ([], false)
  | (s, t) :: rest =>
    let r := fetch_stats s t
    if r.2 then (r.1 :: rest.map (fun p => p.1), true)
    else
      let rr := updateLoop rest
      (r.1 :: rr.1, rr.2)

/-- `HaproxyStats.get_failed`: the servers currently flagged failed. -/
def get_failed (servers : List Server) : List Server :=
  servers.filter (fun s => s.failed)

/-- `HaproxyStats.update`: poll all servers sequentially, then return `False`
when `get_failed()` is non-empty and `True` otherwise.  A raised fetch
exception propagates (`none`: no return value). -/
def update (servers : List Server) (transports : List (Except String String)) :
    List Server × Option Bool :=
  let r := updateLoop (servers.zip transports)
  if r.2 then (r.1, none)
  else (r.1, some (get_failed r.1).isEmpty)

/-- `HaproxyStats.all_stats`: the per-server `stats` dictionaries keyed by
server name; reading a `stats` attribute never assigned raises
(`none`). -/
def all_stats : List Server → Option (List (String × Stats))
  | [] => some []
  | s :: rest =>
    match s.stats, all_stats rest with
    | some st, some r => some ((s.name, st) :: r)
    | _, _ => none

/-- `HaproxyStats.to_json`: `json.dumps` of `all_stats()`.  Serialization is
an external library capability; the model keeps the document content, and
propagates the `AttributeError` of `all_stats` (`none`). -/
def to_json (servers : List Server) : Option (List (String × Stats)) :=
  all_stats servers

/-- The empty-table condition of `fetch_stats`: after stripping spaces and
hash marks from both ends and dropping empty lines, no line is left. -/
def emptyTable (body : String) : Bool :=
  ((pySplit '\n' (pyStrip body)).filter (fun l => l ≠ "")).isEmpty

/-- The end-to-end example payload of the specification. -/
def examplePayload : String :=
  "pxname,svname,iid,status\nweb,FRONTEND,1,OPEN\nweb,BACKEND,1,UP\nweb,srv1,1,UP\nweb,srv2,1,DOWN"

/-- A freshly constructed server instance used for concrete evaluations. -/
def exampleServer : Server := HAProxyServer_init "lb1:80" (none, none)

/-- A server holding the entity lists of a previous successful cycle, used to
exhibit what a failing fetch does to pre-existing state. -/
def populatedServer : Server :=
  { auth := (none, none)
    failed := false
    name := "lb1"
    url := "http://lb1:80/;csv;norefresh"
    frontends := [[("pxname", Value.str "web"), ("svname", Value.str "FRONTEND"),
                   ("iid", Value.int 1), ("name", Value.str "web")]]
    backends := [[("pxname", Value.str "web"), ("svname", Value.str "BACKEND"),
                  ("iid", Value.int 1), ("name", Value.str "web"),
                  ("listener_names", Value.list [Scalar.str "srv1"])]]
    listeners := [[("pxname", Value.str "web"), ("svname", Value.str "srv1"),
                   ("iid", Value.int 1), ("name", Value.str "srv1")]]
    stats := none }

/-- C2: parsing the specification's end-to-end example payload yields exactly
one frontend named "web", exactly one backend named "web" whose
`listener_names` is `["srv1", "srv2"]` in that order, and exactly two
listeners named "srv1" and "srv2". -/
theorem fetch_stats_end_to_end_example :
    ((fetch_stats exampleServer (Except.ok examplePayload)).1.frontends.map
        (fun s => dictGet s "name") = [some (Value.str "web")]) ∧
    ((fetch_stats exampleServer (Except.ok examplePayload)).1.backends.map
        (fun s => dictGet s "name") = [some (Value.str "web")]) ∧
    ((fetch_stats exampleServer (Except.ok examplePayload)).1.backends.map
        (fun s => dictGet s "listener_names")
      = [some (Value.list [Scalar.str "srv1", Scalar.str "srv2"])]) ∧
    ((fetch_stats exampleServer (Except.ok examplePayload)).1.listeners.map
        (fun s => dictGet s "name")
      = [some (Value.str "srv1"), some (Value.str "srv2")]) := by
  decide

/-- C1 (counterexample): a transport-level fetch error does not leave the
entity lists at their previous values — on a server populated by an earlier
cycle, the failing fetch leaves the frontends list empty even though it was
non-empty before the call. -/
theorem fetch_error_cex :
    (fetch_stats populatedServer (Except.error "connection refused")).1.frontends = [] ∧
    populatedServer.frontends ≠ [] := by
  decide

/-- C1 (amended): on a transport-level fetch error the exception propagates
and the three entity lists are left cleared — `fetch_stats` empties them
before attempting the fetch — while `failed`, `stats` and the identity fields
keep their previous values. -/
theorem fetch_error_clears_lists (srv : Server) (e : String) :
    fetch_stats srv (Except.error e)
      = ({ srv with frontends := [], backends := [], listeners := [] }, true) := by
  rfl

/-- C5 (counterexample): a payload consisting only of whitespace need not set
`failed` — a single tab character survives `strip(' #')` and line filtering,
so the table is treated as a header-only table and `failed` stays false. -/
theorem empty_payload_cex :
    (fetch_stats exampleServer (Except.ok "\t")).1.failed = false ∧
    (fetch_stats exampleServer (Except.ok "\t")).2 = false := by
  decide

/-- Helper: `fetch_stats` on a payload satisfying the empty-table condition
marks the instance failed, leaves the freshly cleared entity lists empty, and
returns without raising (and without touching `stats`). -/
theorem fetch_stats_of_emptyTable (srv : Server) (body : String)
    (h : emptyTable body = true) :
    fetch_stats srv (Except.ok body)
      = ({ srv with
            frontends := [], backends := [], listeners := [], failed := true },
         false) := by
  have h2 : List.filter (fun l => decide (l ≠ "")) (pySplit '\n' (pyStrip body)) = [] := by
    simpa [emptyTable, List.isEmpty_iff] using h
  simp only [fetch_stats, HAProxyServer_get]
  rw [h2]

/-- C5 (amended): a payload that is empty after the parse's own trimming —
stripping spaces and hash marks from both ends and dropping empty lines
leaves no line (so in particular the empty payload, or one of only spaces,
hash marks and newlines in stripped position) — sets `failed := true`,
produces empty frontends/backends/listeners lists, and raises no error. -/
theorem empty_payload_sets_failed (srv : Server) (body : String)
    (h : emptyTable body = true) :
    fetch_stats srv (Except.ok body)
      = ({ srv with
            frontends := [], backends := [], listeners := [], failed := true },
         false) :=
  fetch_stats_of_emptyTable srv body h

/-- Witness for `empty_payload_sets_failed` at the empty payload. -/
theorem empty_payload_sets_failed_witness :
    emptyTable "" = true ∧
    fetch_stats exampleServer (Except.ok "")
      = ({ exampleServer with
            frontends := [], backends := [], listeners := [], failed := true },
         false) :=
  ⟨by decide, empty_payload_sets_failed exampleServer "" (by decide)⟩

/-- C7 (counterexample): with exactly one credential set — a username but no
password — the request carries no credentials, because `None in self._auth`
is true for the pair `(user, None)`. -/
theorem auth_one_credential_cex :
    requestAuth (some "admin", none) = none := by
  decide

/-- C7 (amended): a request carries the `(username, password)` credential
pair exactly when both credentials are set; when either of the two is unset
(including when exactly one is), no credentials are attached. -/
theorem auth_pair_iff (u p : Option String) :
    (requestAuth (u, p) = some (u, p) ↔ (u ≠ none ∧ p ≠ none)) ∧
    (requestAuth (u, p) = none ↔ (u = none ∨ p = none)) := by
  cases u <;> cases p <;> simp [requestAuth]

/-- A server whose previous cycle flagged it failed. -/
def failedServer : Server := { exampleServer with failed := true }

/-- C8 (counterexample): a server flagged failed by a prior cycle fetches a
payload that parses into a non-empty table without raising, and its `failed`
flag is still true afterwards — `fetch_stats` never writes `failed = False`. -/
theorem failed_flag_sticky_cex :
    (fetch_stats failedServer (Except.ok examplePayload)).2 = false ∧
    (fetch_stats failedServer (Except.ok examplePayload)).1.listeners ≠ [] ∧
    (fetch_stats failedServer (Except.ok examplePayload)).1.stats ≠ none ∧
    (fetch_stats failedServer (Except.ok examplePayload)).1.failed = true := by
  decide

/-- C8 (amended): the `failed` flag is sticky, not superseded: no fetch —
successful or not — ever resets it, so an instance once flagged failed stays
flagged after every subsequent fetch. -/
theorem failed_flag_persists (srv : Server) (t : Except String String)
    (h : srv.failed = true) : (fetch_stats srv t).1.failed = true := by
  rcases t with e | body
  · simp [fetch_stats, HAProxyServer_get, h]
  · simp only [fetch_stats, HAProxyServer_get]
    split
    · simp
    · split_ifs <;> simp [h]

/-- Witness for `failed_flag_persists` on a concrete failed server. -/
theorem failed_flag_persists_witness :
    failedServer.failed = true ∧
    (fetch_stats failedServer (Except.ok "")).1.failed = true :=
  ⟨by decide, failed_flag_persists failedServer (Except.ok "") (by decide)⟩

/-- C9: the tag does not survive construction — `HAProxyService.__init__`
stores `proxy_name` and then replaces the whole `__dict__` with
`dict(zip(fields, values))`, so a record built from a data row (here with the
owning instance's name "hostA") has no `proxy_name` attribute at all, and
none of the services of a parsed instance carries one. -/
theorem proxy_name_tag_lost :
    ((HAProxyService_init ["pxname", "svname", "iid"] ["web", "FRONTEND", "1"]
        (some "hostA")).map (fun s => dictGet s "proxy_name") = some none) ∧
    ((fetch_stats exampleServer (Except.ok examplePayload)).1.listeners.map
        (fun s => dictGet s "proxy_name") = [none, none]) := by
  decide

/-- C10: a server whose fetches so far all ended in the empty-table soft
failure never has its `stats` attribute assigned, so `all_stats()` and
`to_json()` raise an attribute-lookup error for it (modelled as `none`)
instead of returning a snapshot with empty entity arrays. -/
theorem stats_unassigned_after_soft_failures (srv : Server) (texts : List String)
    (h0 : srv.stats = none) (h : ∀ t ∈ texts, emptyTable t = true) :
    ((texts.foldl (fun s t => (fetch_stats s (Except.ok t)).1) srv).stats = none) ∧
    (all_stats [texts.foldl (fun s t => (fetch_stats s (Except.ok t)).1) srv] = none) ∧
    (to_json [texts.foldl (fun s t => (fetch_stats s (Except.ok t)).1) srv] = none) := by
  have hst : (texts.foldl (fun s t => (fetch_stats s (Except.ok t)).1) srv).stats = none := by
    induction texts generalizing srv with
    | nil => simpa using h0
    | cons t ts ih =>
      simp only [List.foldl_cons]
      refine ih _ ?_ (fun u hu => h u (List.mem_cons_of_mem _ hu))
      rw [fetch_stats_of_emptyTable srv t (h t (List.mem_cons_self _ _))]
      simpa using h0
  refine ⟨hst, ?_, ?_⟩ <;> simp [all_stats, to_json, hst]

/-- Witness for `stats_unassigned_after_soft_failures`: a fresh server that
only ever receives empty or space-only payloads. -/
theorem stats_unassigned_after_soft_failures_witness :
    exampleServer.stats = none ∧
    all_stats [["", "   # "].foldl (fun s t => (fetch_stats s (Except.ok t)).1)
        exampleServer] = none :=
  ⟨by decide,
   (stats_unassigned_after_soft_failures exampleServer ["", "   # "] (by decide)
      (by decide)).2.1⟩

/-- C6: when no fetch of the cycle raised, `update()` returns `True` exactly
when no server of the fleet is flagged failed at the end of the cycle. -/
theorem update_true_iff_no_failed (servers : List Server)
    (ts : List (Except String String)) (servers₂ : List Server)
    (h : updateLoop (servers.zip ts) = (servers₂, false)) :
    update servers ts = (servers₂, some (get_failed servers₂).isEmpty) ∧
    ((update servers ts).2 = some true ↔ ∀ s ∈ servers₂, s.failed = false) := by
  have h1 : update servers ts = (servers₂, some (get_failed servers₂).isEmpty) := by
    simp [update, h]
  refine ⟨h1, ?_⟩
  rw [h1]
  simp only [Option.some.injEq]
  rw [List.isEmpty_iff]
  simp [get_failed, List.filter_eq_nil_iff]

/-- Witness for `update_true_iff_no_failed` on a one-server fleet polled with
a successfully parsed payload. -/
theorem update_true_iff_no_failed_witness :
    updateLoop ([exampleServer].zip [Except.ok examplePayload])
      = ((updateLoop ([exampleServer].zip [Except.ok examplePayload])).1, false) ∧
    ((update [exampleServer] [Except.ok examplePayload]).2 = some true ↔
      ∀ s ∈ (updateLoop ([exampleServer].zip [Except.ok examplePayload])).1,
        s.failed = false) :=
  ⟨by decide,
   (update_true_iff_no_failed [exampleServer] [Except.ok examplePayload]
      (updateLoop ([exampleServer].zip [Except.ok examplePayload])).1
      (by decide)).2⟩

theorem dictGet_insert_self (d : Svc) (k : String) (v : Value) :
    dictGet (dictInsert d k v) k = some v := by
  induction d with
  | nil => simp [dictInsert, dictGet]
  | cons p rest ih =>
    obtain ⟨k₀, v₀⟩ := p
    by_cases h : k₀ = k <;> simp [dictInsert, dictGet, h, ih]

theorem dictGet_insert_ne (d : Svc) (k k' : String) (v : Value) (h : k' ≠ k) :
    dictGet (dictInsert d k v) k' = dictGet d k' := by
  induction d with
  | nil => simp [dictInsert, dictGet, Ne.symm h]
  | cons p rest ih =>
    obtain ⟨k₀, v₀⟩ := p
    by_cases h₀ : k₀ = k
    · subst h₀
      simp [dictInsert, dictGet, Ne.symm h]
    · simp [dictInsert, dictGet, h₀, ih]

/-- Characterization of a successfully constructed service object: it has an
`svname` attribute; on the FRONTEND/BACKEND branch its `name` equals its
`pxname` value, otherwise its `name` equals its `svname` value. -/
theorem HAProxyService_init_spec (fields values : List String) (pn : Option String)
    (s : Svc) (h : HAProxyService_init fields values pn = some s) :
    ∃ sv, dictGet s "svname" = some sv ∧
      ((sv = Value.str "FRONTEND" ∨ sv = Value.str "BACKEND") →
        ∃ px, dictGet s "pxname" = some px ∧ dictGet s "name" = some px) ∧
      (sv ≠ Value.str "FRONTEND" → sv ≠ Value.str "BACKEND" →
        dictGet s "name" = some sv) := by
  simp only [HAProxyService_init] at h
  cases hsv : dictGet (dictZip fields (HAProxyService_read values)) "svname" with
  | none => rw [hsv] at h; exact absurd h (by simp)
  | some sv =>
    simp only [hsv] at h
    by_cases hc : sv = Value.str "FRONTEND" ∨ sv = Value.str "BACKEND"
    · rw [if_pos hc] at h
      cases hpx : dictGet (dictZip fields (HAProxyService_read values)) "pxname" with
      | none => rw [hpx] at h; exact absurd h (by simp)
      | some px =>
        rw [hpx] at h
        simp only [Option.some.injEq] at h
        subst h
        refine ⟨sv, ?_, fun _ => ⟨px, ?_, ?_⟩, fun h₁ h₂ => absurd hc (by simp [h₁, h₂])⟩
        · rw [dictGet_insert_ne _ _ _ _ (by decide), hsv]
        · rw [dictGet_insert_ne _ _ _ _ (by decide), hpx]
        · rw [dictGet_insert_self]
    · rw [if_neg hc] at h
      simp only [Option.some.injEq] at h
      subst h
      refine ⟨sv, ?_, fun hFB => absurd hFB hc, fun _ _ => ?_⟩
      · rw [dictGet_insert_ne _ _ _ _ (by decide), hsv]
      · rw [dictGet_insert_self]

/-- A record classified as a frontend: `svname` is `"FRONTEND"` and the
derived `name` equals the `pxname` field. -/
def isFrontendRecord (s : Svc) : Prop :=
  dictGet s "svname" = some (Value.str "FRONTEND") ∧
  ∃ px, dictGet s "pxname" = some px ∧ dictGet s "name" = some px

/-- A record classified as a backend: `svname` is `"BACKEND"`, the derived
`name` equals the `pxname` field, and an (initially empty) `listener_names`
list is attached. -/
def isBackendRecord (s : Svc) : Prop :=
  dictGet s "svname" = some (Value.str "BACKEND") ∧
  (∃ px, dictGet s "pxname" = some px ∧ dictGet s "name" = some px) ∧
  dictGet s "listener_names" = some (Value.list [])

/-- A record classified as a listener: `svname` is neither `"FRONTEND"` nor
`"BACKEND"` and the derived `name` equals the `svname` field. -/
def isListenerRecord (s : Svc) : Prop :=
  ∃ sv, dictGet s "svname" = some sv ∧ sv ≠ Value.str "FRONTEND" ∧
    sv ≠ Value.str "BACKEND" ∧ dictGet s "name" = some sv

/-- Invariant of the classification loop, generalised over the accumulator:
every service in an output bucket either was already in the corresponding
input bucket or satisfies that bucket's record predicate, and when no
exception escaped, the loop appended exactly one service per data row. -/
theorem classifyRows_invariant (pname : String) (fields : List String)
    (rows : List String) (acc : Buckets) :
    (∀ s ∈ (classifyRows pname fields rows acc).1.1,
        s ∈ acc.1 ∨ isFrontendRecord s) ∧
    (∀ s ∈ (classifyRows pname fields rows acc).1.2.1,
        s ∈ acc.2.1 ∨ isBackendRecord s) ∧
    (∀ s ∈ (classifyRows pname fields rows acc).1.2.2,
        s ∈ acc.2.2 ∨ isListenerRecord s) ∧
    ((classifyRows pname fields rows acc).2 = false →
      (classifyRows pname fields rows acc).1.1.length
        + (classifyRows pname fields rows acc).1.2.1.length
        + (classifyRows pname fields rows acc).1.2.2.length
      = acc.1.length + acc.2.1.length + acc.2.2.length + rows.length) := by
  induction rows generalizing acc with
  | nil =>
    exact ⟨fun s hs => Or.inl hs, fun s hs => Or.inl hs, fun s hs => Or.inl hs,
           fun _ => by simp [classifyRows]⟩
  | cons line rest ih =>
    obtain ⟨fs, bs, ls⟩ := acc
    simp only [classifyRows]
    cases hinit : HAProxyService_init fields (pySplit ',' line) (some pname) with
    | none =>
      exact ⟨fun s hs => Or.inl hs, fun s hs => Or.inl hs, fun s hs => Or.inl hs,
             fun hfalse => by simp at hfalse⟩
    | some svc =>
      obtain ⟨sv₀, hsv₀, hFB, hL⟩ :=
        HAProxyService_init_spec fields (pySplit ',' line) (some pname) svc hinit
      simp only [hsv₀]
      by_cases hF : sv₀ = Value.str "FRONTEND"
      · rw [if_pos hF]
        obtain ⟨ihf, ihb, ihl, ihn⟩ := ih (fs ++ [svc], bs, ls)
        refine ⟨fun s hs => ?_, ihb, ihl, fun hfalse => ?_⟩
        · rcases ihf s hs with hmem | hgood
          · rcases List.mem_append.1 hmem with hmem | hmem
            · exact Or.inl hmem
            · rw [List.mem_singleton.1 hmem]
              refine Or.inr ⟨hF ▸ hsv₀, hFB (Or.inl hF)⟩
          · exact Or.inr hgood
        · have := ihn hfalse
          simp only [List.length_append, List.length_singleton] at this
          simp only [List.length_cons]
          omega
      · rw [if_neg hF]
        by_cases hB : sv₀ = Value.str "BACKEND"
        · rw [if_pos hB]
          obtain ⟨ihf, ihb, ihl, ihn⟩ :=
            ih (fs, bs ++ [dictInsert svc "listener_names" (Value.list [])], ls)
          refine ⟨ihf, fun s hs => ?_, ihl, fun hfalse => ?_⟩
          · rcases ihb s hs with hmem | hgood
            · rcases List.mem_append.1 hmem with hmem | hmem
              · exact Or.inl hmem
              · rw [List.mem_singleton.1 hmem]
                obtain ⟨px, hpx, hname⟩ := hFB (Or.inr hB)
                refine Or.inr ⟨?_, ⟨px, ?_, ?_⟩, ?_⟩
                · rw [dictGet_insert_ne _ _ _ _ (by decide)]; exact hB ▸ hsv₀
                · rw [dictGet_insert_ne _ _ _ _ (by decide)]; exact hpx
                · rw [dictGet_insert_ne _ _ _ _ (by decide)]; exact hname
                · rw [dictGet_insert_self]
            · exact Or.inr hgood
          · have := ihn hfalse
            simp only [List.length_append, List.length_singleton] at this
            simp only [List.length_cons]
            omega
        · rw [if_neg hB]
          obtain ⟨ihf, ihb, ihl, ihn⟩ := ih (fs, bs, ls ++ [svc])
          refine ⟨ihf, ihb, fun s hs => ?_, fun hfalse => ?_⟩
          · rcases ihl s hs with hmem | hgood
            · rcases List.mem_append.1 hmem with hmem | hmem
              · exact Or.inl hmem
              · rw [List.mem_singleton.1 hmem]
                exact Or.inr ⟨sv₀, hsv₀, hF, hB, hL hF hB⟩
            · exact Or.inr hgood
          · have := ihn hfalse
            simp only [List.length_append, List.length_singleton] at this
            simp only [List.length_cons]
            omega

/-- C4: the single classification pass partitions the records — every
frontend-bucket record has svname FRONTEND and name equal to pxname, every
backend-bucket record has svname BACKEND and name equal to pxname, every
listener-bucket record has some other svname and name equal to svname; the
three buckets are pairwise disjoint, and when no exception escaped, exactly
one record was appended to exactly one bucket per data row. -/
theorem classification_partition (pname : String) (fields : List String)
    (rows : List String) (fs bs ls : List Svc) (e : Bool)
    (h : classifyRows pname fields rows ([], [], []) = ((fs, bs, ls), e)) :
    (∀ s ∈ fs, isFrontendRecord s) ∧
    (∀ s ∈ bs, isBackendRecord s) ∧
    (∀ s ∈ ls, isListenerRecord s) ∧
    (∀ s ∈ fs, s ∉ bs ∧ s ∉ ls) ∧
    (∀ s ∈ bs, s ∉ ls) ∧
    (e = false → fs.length + bs.length + ls.length = rows.length) := by
  obtain ⟨hf, hb, hl, hn⟩ := classifyRows_invariant pname fields rows ([], [], [])
  rw [h] at hf hb hl hn
  simp only [List.not_mem_nil, false_or] at hf hb hl
  refine ⟨hf, hb, hl, fun s hs => ⟨fun hs₂ => ?_, fun hs₂ => ?_⟩, fun s hs hs₂ => ?_, ?_⟩
  · obtain ⟨hsv₁, _⟩ := hf s hs
    obtain ⟨hsv₂, _⟩ := hb s hs₂
    rw [hsv₁] at hsv₂
    exact absurd hsv₂ (by decide)
  · obtain ⟨hsv₁, _⟩ := hf s hs
    obtain ⟨sv, hsv₂, hne, _⟩ := hl s hs₂
    rw [hsv₁] at hsv₂
    exact hne (Option.some.inj hsv₂).symm
  · obtain ⟨hsv₁, _⟩ := hb s hs
    obtain ⟨sv, hsv₂, _, hne, _⟩ := hl s hs₂
    rw [hsv₁] at hsv₂
    exact hne (Option.some.inj hsv₂).symm
  · intro he
    have := hn (by rw [he])
    simpa using this

/-- A concrete classification run used to instantiate
`classification_partition`. -/
def wBuckets : Buckets × Bool :=
  classifyRows "lb1" ["pxname", "svname"] ["web,FRONTEND", "web,BACKEND", "web,s1"]
    ([], [], [])

/-- Witness for `classification_partition` on a concrete three-row table. -/
theorem classification_partition_witness :
    (∀ s ∈ wBuckets.1.1, isFrontendRecord s) ∧
    (∀ s ∈ wBuckets.1.2.1, isBackendRecord s) ∧
    (∀ s ∈ wBuckets.1.2.2, isListenerRecord s) ∧
    (∀ s ∈ wBuckets.1.1, s ∉ wBuckets.1.2.1 ∧ s ∉ wBuckets.1.2.2) ∧
    (∀ s ∈ wBuckets.1.2.1, s ∉ wBuckets.1.2.2) ∧
    (wBuckets.2 = false →
      wBuckets.1.1.length + wBuckets.1.2.1.length + wBuckets.1.2.2.length = 3) :=
  classification_partition "lb1" ["pxname", "svname"]
    ["web,FRONTEND", "web,BACKEND", "web,s1"]
    wBuckets.1.1 wBuckets.1.2.1 wBuckets.1.2.2 wBuckets.2 rfl

/-- The `listener_names` entries of a backend dictionary (empty when the
attribute is absent or not a list; the linking lemmas only use it on
dictionaries where it is present). -/
def lnamesOf (b : Svc) : List Scalar :=
  match dictGet b "listener_names" with
  | some (Value.list ns) => ns
  | _ => []

/-- The scalar derived name of a listener dictionary, when present. -/
def listenerNameScalar (l : Svc) : Option Scalar :=
  match dictGet l "name" with
  | some (Value.sc a) => some a
  | _ => none

/-- The names of exactly those listeners whose `iid` equals `biid`, in
listener-list order — the reference value for a backend's `listener_names`
after linking. -/
def matchedNames (ls : List Svc) (biid : Value) : List Scalar :=
  ls.filterMap (fun l =>
    if dictGet l "iid" = some biid then listenerNameScalar l else none)

theorem lnamesOf_insert (b : Svc) (xs : List Scalar) :
    lnamesOf (dictInsert b "listener_names" (Value.list xs)) = xs := by
  simp [lnamesOf, dictGet_insert_self]

theorem matchedNames_cons_pos (l : Svc) (ls : List Svc) (biid : Value) (a : Scalar)
    (hiid : dictGet l "iid" = some biid) (hname : dictGet l "name" = some (Value.sc a)) :
    matchedNames (l :: ls) biid = a :: matchedNames ls biid := by
  simp [matchedNames, List.filterMap_cons, hiid, listenerNameScalar, hname]

theorem matchedNames_cons_neg (l : Svc) (ls : List Svc) (biid liid : Value)
    (hiid : dictGet l "iid" = some liid) (hne : liid ≠ biid) :
    matchedNames (l :: ls) biid = matchedNames ls biid := by
  simp [matchedNames, List.filterMap_cons, hiid, hne]

theorem mem_matchedNames (ls : List Svc) (biid : Value) (a : Scalar) :
    a ∈ matchedNames ls biid ↔
      ∃ l ∈ ls, dictGet l "iid" = some biid ∧ listenerNameScalar l = some a := by
  simp only [matchedNames, List.mem_filterMap]
  constructor
  · rintro ⟨l, hmem, hf⟩
    by_cases hc : dictGet l "iid" = some biid
    · rw [if_pos hc] at hf
      exact ⟨l, hmem, hc, hf⟩
    · rw [if_neg hc] at hf
      cases hf
  · rintro ⟨l, hmem, hiid, hname⟩
    exact ⟨l, hmem, by rw [if_pos hiid]; exact hname⟩

/-- The inner linking loop, under the attribute hypotheses that hold after
classification: it never raises and it appends the listener's name to exactly
the backends whose `iid` equals the listener's. -/
theorem linkBackends_spec (l : Svc) (liid : Value) (a : Scalar)
    (hiid : dictGet l "iid" = some liid) (hname : dictGet l "name" = some (Value.sc a))
    (bs : List Svc)
    (hb : ∀ b ∈ bs, (∃ v, dictGet b "iid" = some v) ∧
        (∃ ns, dictGet b "listener_names" = some (Value.list ns))) :
    linkBackends l bs =
      (bs.map (fun b =>
        if dictGet b "iid" = some liid then
          dictInsert b "listener_names" (Value.list (lnamesOf b ++ [a]))
        else b), false) := by
  induction bs with
  | nil => simp [linkBackends]
  | cons b rest ih =>
    obtain ⟨⟨biid, hbi⟩, ⟨ns, hbn⟩⟩ := hb b (List.mem_cons_self _ _)
    have ihr := ih (fun b₀ h₀ => hb b₀ (List.mem_cons_of_mem _ h₀))
    simp only [linkBackends, hbi, hiid]
    by_cases he : biid = liid
    · rw [if_pos he]
      simp only [hname, hbn, ihr, List.map_cons]
      rw [if_pos (by rw [hbi, he])]
      have hln : lnamesOf b = ns := by simp [lnamesOf, hbn]
      rw [hln]
    · rw [if_neg he]
      simp only [ihr, List.map_cons]
      rw [if_neg (by rw [hbi]; simpa using he)]

/-- The outer linking loop, under the attribute hypotheses: it never raises,
and every output backend corresponds to an input backend with the same `iid`
whose `listener_names` gained exactly the names of the matching listeners, in
listener order. -/
theorem linkListeners_spec (ls : List Svc)
    (hl : ∀ l ∈ ls, (∃ v, dictGet l "iid" = some v) ∧
        (∃ a, dictGet l "name" = some (Value.sc a)))
    (bs : List Svc)
    (hb : ∀ b ∈ bs, (∃ v, dictGet b "iid" = some v) ∧
        (∃ ns, dictGet b "listener_names" = some (Value.list ns))) :
    (linkListeners ls bs).2 = false ∧
    ∀ b₂ ∈ (linkListeners ls bs).1, ∃ b ∈ bs, ∃ biid,
      dictGet b "iid" = some biid ∧ dictGet b₂ "iid" = some biid ∧
      dictGet b₂ "listener_names"
        = some (Value.list (lnamesOf b ++ matchedNames ls biid)) := by
  induction ls generalizing bs with
  | nil =>
    refine ⟨rfl, fun b₂ hb₂ => ?_⟩
    obtain ⟨⟨biid, hbi⟩, ⟨ns, hbn⟩⟩ := hb b₂ hb₂
    refine ⟨b₂, hb₂, biid, hbi, hbi, ?_⟩
    simp [matchedNames, lnamesOf, hbn]
  | cons l rest ih =>
    obtain ⟨⟨liid, hiid⟩, ⟨a, hname⟩⟩ := hl l (List.mem_cons_self _ _)
    have hlb := linkBackends_spec l liid a hiid hname bs hb
    simp only [linkListeners, hlb, if_neg (by simp : ¬(false = true))]
    have hb₁ : ∀ b₁ ∈ bs.map (fun b =>
        if dictGet b "iid" = some liid then
          dictInsert b "listener_names" (Value.list (lnamesOf b ++ [a]))
        else b),
        (∃ v, dictGet b₁ "iid" = some v) ∧
        (∃ ns, dictGet b₁ "listener_names" = some (Value.list ns)) := by
      intro b₁ h₁
      obtain ⟨b, hbmem, rfl⟩ := List.mem_map.1 h₁
      obtain ⟨⟨biid, hbi⟩, ⟨ns, hbn⟩⟩ := hb b hbmem
      by_cases hc : dictGet b "iid" = some liid
      · rw [if_pos hc]
        exact ⟨⟨biid, by rw [dictGet_insert_ne _ _ _ _ (by decide)]; exact hbi⟩,
               ⟨lnamesOf b ++ [a], dictGet_insert_self _ _ _⟩⟩
      · rw [if_neg hc]
        exact ⟨⟨biid, hbi⟩, ⟨ns, hbn⟩⟩
    obtain ⟨hflag, hcorr⟩ :=
      ih (fun l₀ h₀ => hl l₀ (List.mem_cons_of_mem _ h₀)) _ hb₁
    refine ⟨hflag, fun b₂ h₂ => ?_⟩
    obtain ⟨b₁, hb₁mem, biid, hbi₁, hbi₂, hln⟩ := hcorr b₂ h₂
    obtain ⟨b, hbmem, rfl⟩ := List.mem_map.1 hb₁mem
    by_cases hc : dictGet b "iid" = some liid
    · rw [if_pos hc] at hbi₁ hln
      rw [dictGet_insert_ne _ _ _ _ (by decide)] at hbi₁
      have hlb₂ : liid = biid := by
        rw [hc] at hbi₁
        exact Option.some.inj hbi₁
      refine ⟨b, hbmem, biid, hbi₁, hbi₂, ?_⟩
      rw [hln, lnamesOf_insert,
          matchedNames_cons_pos l rest biid a (hlb₂ ▸ hiid) hname]
      simp
    · rw [if_neg hc] at hbi₁ hln
      have hlb₂ : liid ≠ biid := by
        intro hcontra
        exact hc (by rw [hbi₁, hcontra])
      refine ⟨b, hbmem, biid, hbi₁, hbi₂, ?_⟩
      rw [hln, matchedNames_cons_neg l rest biid liid hiid hlb₂]

/-- A payload in which two listeners of different backends share the derived
name "srv". -/
def dupNamePayload : String :=
  "pxname,svname,iid,status\ngrp,BACKEND,1,UP\ngrp,srv,1,UP\nother,srv,2,UP"

/-- C3 (counterexample): after parsing `dupNamePayload`, the only backend has
iid 1 and `listener_names = ["srv"]`, while the second listener also has
derived name "srv" but iid 2 — so that listener's name is a member of the
backend's `listener_names` even though its iid differs from the backend's,
refuting the claimed "if and only if". -/
theorem linking_iff_cex :
    ((fetch_stats exampleServer (Except.ok dupNamePayload)).1.backends.map
        (fun b => (dictGet b "iid", dictGet b "listener_names"))
      = [(some (Value.int 1), some (Value.list [Scalar.str "srv"]))]) ∧
    ((fetch_stats exampleServer (Except.ok dupNamePayload)).1.listeners.map
        (fun l => (dictGet l "name", dictGet l "iid"))
      = [(some (Value.str "srv"), some (Value.int 1)),
         (some (Value.str "srv"), some (Value.int 2))]) := by
  decide

/-- C3 (amended): after the linking pass over classified buckets (backends
with an `iid` and an empty `listener_names` list, listeners with an `iid` and
a scalar derived name), no exception escapes and every resulting backend's
`listener_names` is exactly the list of derived names of the listeners whose
`iid` equals the backend's, in listener order.  Consequently a listener whose
iid matches no backend appears in no `listener_names`, and — provided
listener names determine their iids (no duplicate name with different iids) —
a listener's name is a member of a backend's `listener_names` if and only if
the listener's iid equals the backend's. -/
theorem linking_names (ls bs : List Svc)
    (hb : ∀ b ∈ bs, (∃ v, dictGet b "iid" = some v) ∧
        dictGet b "listener_names" = some (Value.list []))
    (hl : ∀ l ∈ ls, (∃ v, dictGet l "iid" = some v) ∧
        (∃ a, dictGet l "name" = some (Value.sc a))) :
    (linkListeners ls bs).2 = false ∧
    (∀ b₂ ∈ (linkListeners ls bs).1, ∃ biid, dictGet b₂ "iid" = some biid ∧
        dictGet b₂ "listener_names" = some (Value.list (matchedNames ls biid))) ∧
    ((∀ l₁ ∈ ls, ∀ l₂ ∈ ls,
        dictGet l₁ "name" = dictGet l₂ "name" →
        dictGet l₁ "iid" = dictGet l₂ "iid") →
      ∀ b₂ ∈ (linkListeners ls bs).1, ∀ l ∈ ls, ∀ a : Scalar,
        dictGet l "name" = some (Value.sc a) →
        ((∃ ns, dictGet b₂ "listener_names" = some (Value.list ns) ∧ a ∈ ns) ↔
          dictGet l "iid" = dictGet b₂ "iid")) := by
  have hb' : ∀ b ∈ bs, (∃ v, dictGet b "iid" = some v) ∧
      (∃ ns, dictGet b "listener_names" = some (Value.list ns)) :=
    fun b h => ⟨(hb b h).1, ⟨[], (hb b h).2⟩⟩
  obtain ⟨hflag, hcorr⟩ := linkListeners_spec ls hl bs hb'
  have hpart2 : ∀ b₂ ∈ (linkListeners ls bs).1, ∃ biid,
      dictGet b₂ "iid" = some biid ∧
      dictGet b₂ "listener_names" = some (Value.list (matchedNames ls biid)) := by
    intro b₂ h₂
    obtain ⟨b, hbmem, biid, hbi, hbi₂, hln⟩ := hcorr b₂ h₂
    refine ⟨biid, hbi₂, ?_⟩
    rw [hln]
    have hempty : lnamesOf b = [] := by simp [lnamesOf, (hb b hbmem).2]
    rw [hempty, List.nil_append]
  refine ⟨hflag, hpart2, ?_⟩
  intro hinj b₂ h₂ l hlmem a hname
  obtain ⟨biid, hbi₂, hln₂⟩ := hpart2 b₂ h₂
  rw [hbi₂]
  constructor
  · rintro ⟨ns, hns, hmem⟩
    rw [hln₂] at hns
    have hns' : ns = matchedNames ls biid :=
      (Value.list.inj (Option.some.inj hns)).symm
    subst hns'
    obtain ⟨l', hl'mem, hl'iid, hl'name⟩ := (mem_matchedNames ls biid a).1 hmem
    obtain ⟨_, ⟨a₀, hn₀⟩⟩ := hl l' hl'mem
    have hn' : dictGet l' "name" = some (Value.sc a) := by
      simp only [listenerNameScalar, hn₀, Option.some.injEq] at hl'name
      rw [hn₀, hl'name]
    have hiideq := hinj l hlmem l' hl'mem (by rw [hname, hn'])
    rw [hiideq]
    exact hl'iid
  · intro hiidl
    refine ⟨matchedNames ls biid, hln₂, ?_⟩
    exact (mem_matchedNames ls biid a).2
      ⟨l, hlmem, hiidl, by simp [listenerNameScalar, hname]⟩

/-- Two listeners with distinct names and a backend matching the first, used
to instantiate `linking_names`. -/
def wListeners : List Svc :=
  [[("iid", Value.int 1), ("name", Value.str "s1")],
   [("iid", Value.int 2), ("name", Value.str "s2")]]

/-- A single backend with iid 1 and an empty `listener_names` list. -/
def wBackends : List Svc :=
  [[("iid", Value.int 1), ("listener_names", Value.list [])]]

/-- Witness for `linking_names` on a concrete two-listener, one-backend
instance. -/
theorem linking_names_witness :
    (linkListeners wListeners wBackends).2 = false ∧
    (∀ b₂ ∈ (linkListeners wListeners wBackends).1, ∃ biid,
        dictGet b₂ "iid" = some biid ∧
        dictGet b₂ "listener_names"
          = some (Value.list (matchedNames wListeners biid))) ∧
    ((∀ l₁ ∈ wListeners, ∀ l₂ ∈ wListeners,
        dictGet l₁ "name" = dictGet l₂ "name" →
        dictGet l₁ "iid" = dictGet l₂ "iid") →
      ∀ b₂ ∈ (linkListeners wListeners wBackends).1, ∀ l ∈ wListeners,
        ∀ a : Scalar, dictGet l "name" = some (Value.sc a) →
        ((∃ ns, dictGet b₂ "listener_names" = some (Value.list ns) ∧ a ∈ ns) ↔
          dictGet l "iid" = dictGet b₂ "iid")) :=
  linking_names wListeners wBackends
    (by
      intro b hbm
      rw [wBackends, List.mem_singleton] at hbm
      subst hbm
      exact ⟨⟨Value.int 1, rfl⟩, rfl⟩)
    (by
      intro l hlm
      simp only [wListeners, List.mem_cons, List.not_mem_nil, or_false] at hlm
      rcases hlm with rfl | rfl
      · exact ⟨⟨Value.int 1, rfl⟩, ⟨Scalar.str "s1", rfl⟩⟩
      · exact ⟨⟨Value.int 2, rfl⟩, ⟨Scalar.str "s2", rfl⟩⟩)

end HaproxyStatsModel
